import Mathlib

/-!
Shallow embedding of `src/extract_data_from_repo.py` (the FIM example-extraction
core): line classifiers, structural validation, the span sampler
`randomly_select_middle_section`, `split_code`, and the example-builder loop
`generate_random_examples`.

Modelling conventions:
* Python lists of text lines become `List String`; 1-indexed line numbers
  become `ℕ`.
* Python sequence indexing `l[i]` (which supports negative indices and raises
  `IndexError` out of range) is modelled by `pyGetI` over an `ℤ` index,
  returning `Except PyErr`.
* Fallible operations return `Except PyErr`; `IOError` (unreadable file),
  `ValueError` (`random.randint` with an empty range, `min`/`max` of an empty
  sequence) and `IndexError` are distinguished.
* Randomness is modelled by an explicit tape of draws.  The call
  `int(np.clip(np.random.normal(mean, std), 0, n - min_middle))` always lands
  in `{0, ..., n - min_middle}`, so the draw is modelled as an arbitrary
  `s : ℕ` clamped with `min s (n - min_middle)`.  When `n ≥ 4` the standard
  deviation `n // 4` is positive and the normal distribution has full
  support, so every clamped value is reachable; when `n < 4` the draw
  degenerates to the point mass at `n // 2`, so the tape is a superset of the
  reachable behaviour — sound for the universally-quantified theorems — and
  the concrete tapes used by counterexamples and witnesses only take draws
  that are reachable (`s = n // 2` for the three-line coverage fixture, or
  positions where the clamp forces the value regardless of `s`).  Likewise
  `random.randint(lo, hi)` returns some value of `{lo, ..., hi}` when
  `lo ≤ hi` (each reachable), modelled as `lo + t % (hi - lo + 1)` for an
  arbitrary tape value `t`, and raises `ValueError` when `lo > hi`.
* The `while` loop of `generate_random_examples` is modelled with explicit
  fuel; `PyErr.outOfFuel` is a fuel-exhaustion marker that the supplied fuel
  bound provably never produces (`generate_random_examples_never_out_of_fuel`).
-/

namespace ExtractData

/-- Errors a Python run of the embedded code can raise, plus the
fuel-exhaustion marker of the loop embedding. -/
inductive PyErr where
  | indexError
  | valueError
  | ioError
  | outOfFuel
  deriving DecidableEq

/-- Characters stripped by Python's default `str.strip`/`str.lstrip` and
matched by the regex class `\s` (ASCII range). -/
def pyIsSpace (c : Char) : Bool :=
  c = ' ' || c = '\t' || c = '\n' || c = '\r' || c = '\x0B' || c = '\x0C'

/-- Python sequence indexing `l[i]`: negative indices count from the end;
anything outside `[-len, len)` raises `IndexError`. -/
def pyGetI {α : Type} (l : List α) (i : ℤ) : Except PyErr α :=
  if i < 0 then
    match l.get? (i + (l.length : ℤ)).toNat with
    | some x => if 0 ≤ i + (l.length : ℤ) then .ok x else .error .indexError
    | none => .error .indexError
  else
    match l.get? i.toNat with
    | some x => .ok x
    | none => .error .indexError

/-- Embedding of `random.randint(lo, hi)`: a value in `[lo, hi]` (here `lo + t % (hi-lo+1)`
for the tape value `t`); raises `ValueError` when `lo > hi`. -/
def py_randint (lo hi t : ℕ) : Except PyErr ℕ :=
  if hi < lo then .error .valueError else .ok (lo + t % (hi - lo + 1))

/-- Python `str.strip()` with default whitespace set. -/
def py_strip (s : String) : String :=
  String.mk (((s.data.dropWhile pyIsSpace).reverse.dropWhile pyIsSpace).reverse)

/-- Structural prefix test on character lists (the semantics of Python's
`str.startswith`). -/
def listIsPrefix : List Char → List Char → Bool
  | [], _ => true
  | _ :: _, [] => false
  | c :: cs, d :: ds => c = d && listIsPrefix cs ds

/-- Python's `s.startswith(pre)`. -/
def py_startswith (s pre : String) : Bool :=
  listIsPrefix pre.data s.data

/-- Embedding of `is_function_or_class_declaration(line)`:
`bool(re.match(r'^\s*(def |class )', line))`. -/
def is_function_or_class_declaration (line : String) : Bool :=
  let rest := String.mk (line.data.dropWhile pyIsSpace)
  py_startswith rest "def " || py_startswith rest "class "

/-- Embedding of `is_decorator(line)`: `line.strip().startswith("@")`. -/
def is_decorator (line : String) : Bool :=
  py_startswith (py_strip line) "@"

/-- Embedding of `is_indented(line)`: `line.startswith("    ")`. -/
def is_indented (line : String) : Bool :=
  py_startswith line "    "

/-- Embedding of `get_indentation_level(line)`: `len(line) - len(line.lstrip())`, i.e. the
number of leading whitespace characters. -/
def get_indentation_level (line : String) : ℕ :=
  (line.data.takeWhile pyIsSpace).length

/-- Embedding of `contains_function_definition_with_body(lines)`: some line is a
definition header and the immediately following line is indented (the last
line never qualifies, matching the `i + 1 < len(lines)` bound). -/
def contains_function_definition_with_body : List String → Bool
  | line :: next :: rest =>
    (is_function_or_class_declaration line && is_indented next)
      || contains_function_definition_with_body (next :: rest)
  | _ => false

/-- The list comprehension
`[get_indentation_level(l) for l in file_lines[:e0] if is_function_or_class_declaration(l)]`
with `e0 = executed_lines[0]`. -/
def prefix_function_indents (file_lines : List String) (e0 : ℕ) : List ℕ :=
  ((file_lines.take e0).filter is_function_or_class_declaration).map
    get_indentation_level

/-- The validation `for line_number in middle_lines` loop of
`randomly_select_middle_section`: returns the Python `invalid_section` flag,
breaking at the first offending line; each line is fetched with
`file_lines[line_number - 1]`. -/
def check_section (file_lines : List String) (fIndents : List ℕ)
    (middle_indent : ℕ) : List ℕ → Except PyErr Bool
  | [] => .ok false
  | ln :: rest =>
    match pyGetI file_lines ((ln : ℤ) - 1) with
    | .error err => .error err
    | .ok line =>
      if is_function_or_class_declaration line
          || decide (get_indentation_level line ∈ fIndents)
          || is_decorator line
          || decide (middle_indent ∈ fIndents) then .ok true
      else check_section file_lines fIndents middle_indent rest

/-- One iteration of the `for _ in range(10)` loop of
`randomly_select_middle_section`, for the draw pair `(s, t)`:
`start_index = int(np.clip(normal, 0, n - min_middle))`,
`end_index = min(start_index + randint(min_middle, max_middle), n - 1)`,
`middle_lines = list(range(executed_lines[start_index], executed_lines[end_index]))`;
returns `some middle_lines` when the section validates, `none` when the
candidate is empty or invalid (causing a retry). -/
def sample_attempt (file_lines : List String) (executed_lines : List ℕ)
    (min_middle max_middle : ℕ) (fIndents : List ℕ) (s t : ℕ) :
    Except PyErr (Option (List ℕ)) :=
  let n := executed_lines.length
  let start_index := min s (n - min_middle)
  match py_randint min_middle max_middle t with
  | .error err => .error err
  | .ok len_draw =>
    let end_index := min (start_index + len_draw) (n - 1)
    match pyGetI executed_lines (start_index : ℤ) with
    | .error err => .error err
    | .ok a =>
      match pyGetI executed_lines (end_index : ℤ) with
      | .error err => .error err
      | .ok b =>
        let middle_lines := List.range' a (b - a)
        match middle_lines with
        | [] => .ok none
        | m0 :: _ =>
          match pyGetI file_lines ((m0 : ℤ) - 1) with
          | .error err => .error err
          | .ok first_line =>
            match check_section file_lines fIndents
                (get_indentation_level first_line) middle_lines with
            | .error err => .error err
            | .ok true => .ok none
            | .ok false => .ok (some middle_lines)

/-- The retry loop of `randomly_select_middle_section` (`fuel` starts at 10);
`k` indexes the randomness tape. -/
def sample_loop (file_lines : List String) (executed_lines : List ℕ)
    (min_middle max_middle : ℕ) (fIndents : List ℕ) (tape : ℕ → ℕ × ℕ) :
    ℕ → ℕ → Except PyErr (Option (List ℕ))
  | 0, _ => .ok none
  | fuel + 1, k =>
    match sample_attempt file_lines executed_lines min_middle max_middle
        fIndents (tape k).1 (tape k).2 with
    | .error err => .error err
    | .ok (some m) => .ok (some m)
    | .ok none =>
      sample_loop file_lines executed_lines min_middle max_middle fIndents
        tape fuel (k + 1)

/-- Embedding of `randomly_select_middle_section(file_lines, executed_lines, min_middle, max_middle)`:
the length guard, the computation of `prefix_function_indents` from
`file_lines[:executed_lines[0]]`, then up to 10 sampling attempts. -/
def randomly_select_middle_section (file_lines : List String)
    (executed_lines : List ℕ) (min_middle max_middle : ℕ)
    (tape : ℕ → ℕ × ℕ) : Except PyErr (Option (List ℕ)) :=
  if executed_lines.length < min_middle then .ok none
  else
    match pyGetI executed_lines 0 with
    | .error err => .error err
    | .ok e0 =>
      sample_loop file_lines executed_lines min_middle max_middle
        (prefix_function_indents file_lines e0) tape 10 0

/-- Python's `enumerate(file_lines, 1)`. -/
def enumFrom : ℕ → List String → List (ℕ × String)
  | _, [] => []
  | s, line :: rest => (s, line) :: enumFrom (s + 1) rest

/-- Embedding of `split_code(file_lines, middle_lines)`: the three comprehensions over
`enumerate(file_lines, 1)` keyed on `min(middle_lines)` / membership /
`max(middle_lines)`, the `contains_function_definition_with_body` gate on the
prefix, and the `"".join` of each part.  `min`/`max` of an empty list raise
`ValueError`. -/
def split_code (file_lines : List String) (middle_lines : List ℕ) :
    Except PyErr (Option (String × String × String)) :=
  match middle_lines with
  | [] => .error .valueError
  | m0 :: rest =>
    let lo := rest.foldl min m0
    let hi := rest.foldl max m0
    let pre := ((enumFrom 1 file_lines).filter
      (fun q => decide (q.1 < lo))).map Prod.snd
    let mid := ((enumFrom 1 file_lines).filter
      (fun q => decide (q.1 ∈ m0 :: rest))).map Prod.snd
    let suf := ((enumFrom 1 file_lines).filter
      (fun q => decide (hi < q.1))).map Prod.snd
    if contains_function_definition_with_body pre then
      .ok (some (String.join pre, String.join mid, String.join suf))
    else .ok none

/-- One emitted example record `{file_path, prefix, middle, suffix}` (the
`prefix`/`middle`/`suffix` keys are spelled `prefixPart`/`middlePart`/
`suffixPart` because `prefix` is reserved in Lean). -/
structure FimExample where
  file_path : String
  prefixPart : String
  middlePart : String
  suffixPart : String
  deriving DecidableEq

/-- The `while len(examples) < num_examples and retries < max_retries` loop of
`generate_random_examples`.  `fs` models the file system (`open(path).readlines()`;
`none` means the read raises `IOError`), `all_files` is
`list(coverage_data['files'].items())` with each record already reduced to its
`executed_lines` list, and `tape it` supplies the `random.choice` draw and the
sampler tape of iteration `it`.  `random.choice` on an empty list raises
`IndexError`.  The sampler is called with the default bounds
`min_middle = 1`, `max_middle = 10`. -/
def generate_loop (fs : String → Option (List String))
    (all_files : List (String × List ℕ)) (num_examples max_retries : ℕ)
    (tape : ℕ → ℕ × (ℕ → ℕ × ℕ)) :
    ℕ → List FimExample → ℕ → ℕ → Except PyErr (List FimExample)
  | 0, _, _, _ => .error .outOfFuel
  | fuel + 1, examples, retries, it =>
    if num_examples ≤ examples.length ∨ max_retries ≤ retries then .ok examples
    else
      match all_files with
      | [] => .error .indexError
      | f0 :: rest_files =>
        let chosen := (f0 :: rest_files).get
          ⟨(tape it).1 % (f0 :: rest_files).length,
            Nat.mod_lt _ (Nat.succ_pos rest_files.length)⟩
        if chosen.2 = [] then
          generate_loop fs all_files num_examples max_retries tape fuel
            examples (retries + 1) (it + 1)
        else
          match fs chosen.1 with
          | none => .error .ioError
          | some file_lines =>
            match randomly_select_middle_section file_lines chosen.2 1 10
                (tape it).2 with
            | .error err => .error err
            | .ok none =>
              generate_loop fs all_files num_examples max_retries tape fuel
                examples (retries + 1) (it + 1)
            | .ok (some middle_lines) =>
              if middle_lines = [] then
                generate_loop fs all_files num_examples max_retries tape fuel
                  examples (retries + 1) (it + 1)
              else
                match split_code file_lines middle_lines with
                | .error err => .error err
                | .ok none =>
                  generate_loop fs all_files num_examples max_retries tape fuel
                    examples (retries + 1) (it + 1)
                | .ok (some pms) =>
                  if pms.1 ≠ "" ∧ py_strip pms.2.1 ≠ "" then
                    generate_loop fs all_files num_examples max_retries tape
                      fuel (examples ++ [⟨chosen.1, pms.1, pms.2.1, pms.2.2⟩])
                      0 (it + 1)
                  else
                    generate_loop fs all_files num_examples max_retries tape
                      fuel examples (retries + 1) (it + 1)

/-- Embedding of `generate_random_examples(coverage_data, num_examples, max_retries)`:
starts the loop with no examples and `retries = 0`.  The fuel
`(num_examples + 1) * (max_retries + 1)` strictly dominates the loop variant
`(num_examples - len(examples)) * (max_retries + 1) + (max_retries - retries)`,
so it is never exhausted (`generate_random_examples_never_out_of_fuel`). -/
def generate_random_examples (fs : String → Option (List String))
    (all_files : List (String × List ℕ)) (num_examples max_retries : ℕ)
    (tape : ℕ → ℕ × (ℕ → ℕ × ℕ)) : Except PyErr (List FimExample) :=
  generate_loop fs all_files num_examples max_retries tape
    ((num_examples + 1) * (max_retries + 1)) [] 0 0

/-- Modelled from the spec: the claimed reading of the retry budget in which
`retries` accumulates over the whole run ("retries accumulated across all
failed iterations") and is never reset when an example is accepted.  This
differs from `generate_loop` only in the accepted-example branch, which keeps
`retries` instead of resetting it to `0`; it exists solely to be compared
against the code's behaviour. -/
def generate_loop_accumulated (fs : String → Option (List String))
    (all_files : List (String × List ℕ)) (num_examples max_retries : ℕ)
    (tape : ℕ → ℕ × (ℕ → ℕ × ℕ)) :
    ℕ → List FimExample → ℕ → ℕ → Except PyErr (List FimExample)
  | 0, _, _, _ => .error .outOfFuel
  | fuel + 1, examples, retries, it =>
    if num_examples ≤ examples.length ∨ max_retries ≤ retries then .ok examples
    else
      match all_files with
      | [] => .error .indexError
      | f0 :: rest_files =>
        let chosen := (f0 :: rest_files).get
          ⟨(tape it).1 % (f0 :: rest_files).length,
            Nat.mod_lt _ (Nat.succ_pos rest_files.length)⟩
        if chosen.2 = [] then
          generate_loop_accumulated fs all_files num_examples max_retries tape
            fuel examples (retries + 1) (it + 1)
        else
          match fs chosen.1 with
          | none => .error .ioError
          | some file_lines =>
            match randomly_select_middle_section file_lines chosen.2 1 10
                (tape it).2 with
            | .error err => .error err
            | .ok none =>
              generate_loop_accumulated fs all_files num_examples max_retries
                tape fuel examples (retries + 1) (it + 1)
            | .ok (some middle_lines) =>
              if middle_lines = [] then
                generate_loop_accumulated fs all_files num_examples max_retries
                  tape fuel examples (retries + 1) (it + 1)
              else
                match split_code file_lines middle_lines with
                | .error err => .error err
                | .ok none =>
                  generate_loop_accumulated fs all_files num_examples
                    max_retries tape fuel examples (retries + 1) (it + 1)
                | .ok (some pms) =>
                  if pms.1 ≠ "" ∧ py_strip pms.2.1 ≠ "" then
                    generate_loop_accumulated fs all_files num_examples
                      max_retries tape fuel
                      (examples ++ [⟨chosen.1, pms.1, pms.2.1, pms.2.2⟩])
                      retries (it + 1)
                  else
                    generate_loop_accumulated fs all_files num_examples
                      max_retries tape fuel examples (retries + 1) (it + 1)

/-- Modelled from the spec: top-level entry of the accumulated-retries reading
of the example builder (see `generate_loop_accumulated`). -/
def generate_random_examples_accumulated (fs : String → Option (List String))
    (all_files : List (String × List ℕ)) (num_examples max_retries : ℕ)
    (tape : ℕ → ℕ × (ℕ → ℕ × ℕ)) : Except PyErr (List FimExample) :=
  generate_loop_accumulated fs all_files num_examples max_retries tape
    ((num_examples + 1) * (max_retries + 1)) [] 0 0

/-- Provenance of an example accepted by `generate_loop`: the data of the
iteration that appended it — the coverage entry chosen, the file's lines, the
sampler success, and the `split_code` result together with the two acceptance
gates of `generate_random_examples`. -/
def AcceptedExample (fs : String → Option (List String))
    (all_files : List (String × List ℕ)) (ex : FimExample) : Prop :=
  ∃ (e : List ℕ) (fl : List String) (tp : ℕ → ℕ × ℕ) (mids : List ℕ),
    (ex.file_path, e) ∈ all_files ∧
    fs ex.file_path = some fl ∧
    randomly_select_middle_section fl e 1 10 tp = .ok (some mids) ∧
    mids ≠ [] ∧
    split_code fl mids = .ok (some (ex.prefixPart, ex.middlePart,
      ex.suffixPart)) ∧
    ex.prefixPart ≠ "" ∧ py_strip ex.middlePart ≠ ""

/-! ### Concrete fixtures used by the counterexamples and witnesses -/

/-- A seven-line Python file.  Line 1 is a definition header with an indented
body on line 2; line 4 is an indented definition header (depth 4) inside the
prefix region; line 6 is an ordinary statement of depth 4. -/
def flC : List String :=
  ["def f():\n", "    x = 1\n", "y = 2\n", "    def h():\n",
   "        a = 1\n", "    b = 2\n", "c = 3\n"]

/-- A file system holding exactly `f.py` with contents `flC`. -/
def fsC : String → Option (List String) :=
  fun p => if p = "f.py" then some flC else none

/-- A coverage index: `f.py` with executed lines 2, 6 and 7. -/
def filesC : List (String × List ℕ) := [("f.py", [2, 6, 7])]

/-- Sampler tape whose every draw is `(0, 0)`; used where the clamp forces
the start index regardless of the drawn value. -/
def tapeFail : ℕ → ℕ × ℕ := fun _ => (0, 0)

/-- Sampler draws `(1, 0)`: `start_index = 1`, length draw 1 — on `filesC`
this candidate is `[6]`, which validates. -/
def tapeSucc : ℕ → ℕ × ℕ := fun _ => (1, 0)

/-- Builder tape: every iteration picks file 0 and samples with `tapeSucc`. -/
def tapeOne : ℕ → ℕ × (ℕ → ℕ × ℕ) := fun _ => (0, tapeSucc)

/-- A coverage index with `f.py` (executed lines 2, 6, 7) and a second file
whose executed-lines list is empty; selecting the second file is a failed
iteration that costs one retry. -/
def filesC9 : List (String × List ℕ) :=
  [("f.py", [2, 6, 7]), ("none.py", [])]

/-- Builder tape on `filesC9`: even iterations pick the empty-coverage file
(a failed iteration), odd iterations pick `f.py` and succeed. -/
def tapeC9 : ℕ → ℕ × (ℕ → ℕ × ℕ) :=
  fun it => (if it % 2 = 0 then 1 else 0, tapeSucc)

/-- The example extracted from `flC` when the span `[6]` is selected. -/
def exC : FimExample :=
  ⟨"f.py", "def f():\n    x = 1\ny = 2\n    def h():\n        a = 1\n",
   "    b = 2\n", "c = 3\n"⟩

/-- A two-line file whose second line is executed and structurally
admissible. -/
def flSingle : List String := ["def f():\n", "    return 1\n"]

/-! ### Basic facts about the Python-primitive embeddings -/

theorem pyGetI_ofNat {α : Type} (l : List α) (k : ℕ) :
    pyGetI l (k : ℤ) =
      match l.get? k with
      | some x => Except.ok x
      | none => Except.error PyErr.indexError := by
  unfold pyGetI
  rw [if_neg (by omega : ¬ ((k : ℤ) < 0))]
  simp

theorem pyGetI_ofNat_ok {α : Type} {l : List α} {k : ℕ} {x : α} :
    pyGetI l (k : ℤ) = .ok x ↔ l.get? k = some x := by
  rw [pyGetI_ofNat]
  cases h : l.get? k <;> simp

theorem pyGetI_lt {α : Type} {l : List α} {k : ℕ} (h : k < l.length) :
    pyGetI l (k : ℤ) = .ok (l.get ⟨k, h⟩) := by
  rw [pyGetI_ofNat, List.get?_eq_get h]

theorem pyGetI_ofNat_ok_length {α : Type} {l : List α} {k : ℕ} {x : α}
    (h : pyGetI l (k : ℤ) = .ok x) : k < l.length := by
  have := pyGetI_ofNat_ok.mp h
  by_contra hk
  rw [List.get?_len_le (by omega)] at this
  exact Option.noConfusion this

theorem pyGetI_ok_mem {α : Type} {l : List α} {i : ℤ} {x : α}
    (h : pyGetI l i = .ok x) : x ∈ l := by
  unfold pyGetI at h
  split at h
  · cases hg : l.get? (i + (l.length : ℤ)).toNat with
    | none => simp only [hg] at h; exact absurd h (by simp)
    | some y =>
      simp only [hg] at h
      rcases le_or_lt 0 (i + (l.length : ℤ)) with hle | hlt
      · rw [if_pos hle] at h; cases h; exact List.get?_mem hg
      · rw [if_neg (by omega : ¬ (0 ≤ i + (l.length : ℤ)))] at h
        exact absurd h (by simp)
  · cases hg : l.get? i.toNat with
    | none => simp only [hg] at h; exact absurd h (by simp)
    | some y => simp only [hg] at h; cases h; exact List.get?_mem hg

theorem pyGetI_sub_one {α : Type} (l : List α) {ln : ℕ} (h : 1 ≤ ln) :
    pyGetI l ((ln : ℤ) - 1) = pyGetI l ((ln - 1 : ℕ) : ℤ) := by
  have he : ((ln : ℤ) - 1) = ((ln - 1 : ℕ) : ℤ) := by omega
  rw [he]

theorem mem_range'_iff {x a k : ℕ} :
    x ∈ List.range' a k ↔ a ≤ x ∧ x < a + k := by
  rw [List.mem_range']
  constructor
  · rintro ⟨i, hi, rfl⟩; omega
  · rintro ⟨h1, h2⟩; exact ⟨x - a, by omega, by omega⟩

theorem foldl_min_eq {l : List ℕ} : ∀ {c : ℕ}, (∀ x ∈ l, c ≤ x) →
    l.foldl min c = c := by
  induction l with
  | nil => intro c _; rfl
  | cons x xs ih =>
    intro c h
    simp only [List.foldl_cons]
    rw [min_eq_left (h x (by simp))]
    exact ih fun y hy => h y (by simp [hy])

theorem foldl_max_range' :
    ∀ (k s c : ℕ), c < s →
      List.foldl max c (List.range' s k) = if k = 0 then c else s + k - 1 := by
  intro k
  induction k with
  | zero => intro s c _; simp
  | succ n ih =>
    intro s c h
    rw [List.range'_succ]
    simp only [List.foldl_cons]
    rw [max_eq_right (le_of_lt h)]
    by_cases hn : n = 0
    · subst hn; simp
    · rw [ih (s + 1) s (Nat.lt_succ_self s)]
      simp only [hn, if_false, Nat.succ_ne_zero]
      omega

theorem foldl_str_append (l : List String) :
    ∀ s : String, l.foldl (fun r t => r ++ t) s
      = s ++ l.foldl (fun r t => r ++ t) "" := by
  induction l with
  | nil => intro s; simp
  | cons x xs ih =>
    intro s
    simp only [List.foldl_cons]
    rw [ih (s ++ x), ih ("" ++ x), String.empty_append, String.append_assoc]

theorem join_append (l1 l2 : List String) :
    String.join (l1 ++ l2) = String.join l1 ++ String.join l2 := by
  unfold String.join
  rw [List.foldl_append, foldl_str_append]

/-! ### Facts about `enumFrom` and the `split_code` comprehensions -/

theorem enumFrom_mem {l : List String} :
    ∀ {s : ℕ} {q : ℕ × String}, q ∈ enumFrom s l →
      s ≤ q.1 ∧ l.get? (q.1 - s) = some q.2 := by
  induction l with
  | nil => intro s q h; simp [enumFrom] at h
  | cons x xs ih =>
    intro s q h
    simp only [enumFrom, List.mem_cons] at h
    rcases h with rfl | h
    · simp
    · obtain ⟨h1, h2⟩ := ih h
      refine ⟨by omega, ?_⟩
      have he : q.1 - s = (q.1 - (s + 1)) + 1 := by omega
      rw [he]
      simpa using h2

theorem filter_enumFrom_lt_nil {l : List String} {s a : ℕ} (h : a ≤ s) :
    (enumFrom s l).filter (fun q => decide (q.1 < a)) = [] := by
  rw [List.filter_eq_nil_iff]
  intro q hq
  have h1 := (enumFrom_mem hq).1
  simp only [decide_eq_true_eq]
  omega

theorem filter_enumFrom_range'_nil {l : List String} {s a k : ℕ}
    (h : a + k ≤ s) :
    (enumFrom s l).filter (fun q => decide (q.1 ∈ List.range' a k)) = [] := by
  rw [List.filter_eq_nil_iff]
  intro q hq
  have h1 := (enumFrom_mem hq).1
  simp only [decide_eq_true_eq, mem_range'_iff]
  omega

theorem enum_partition :
    ∀ (l : List String) (s a k : ℕ), 0 < k →
      (((enumFrom s l).filter (fun q => decide (q.1 < a))).map Prod.snd)
        ++ (((enumFrom s l).filter
              (fun q => decide (q.1 ∈ List.range' a k))).map Prod.snd)
        ++ (((enumFrom s l).filter
              (fun q => decide (a + k - 1 < q.1))).map Prod.snd) = l := by
  intro l
  induction l with
  | nil => intro s a k _; simp [enumFrom]
  | cons x xs ih =>
    intro s a k hk
    by_cases h1 : s < a
    · have d1 : decide ((s : ℕ) < a) = true := by simp [h1]
      have d2 : decide ((s : ℕ) ∈ List.range' a k) = false := by
        simp only [decide_eq_false_iff_not, mem_range'_iff]; omega
      have d3 : decide (a + k - 1 < s) = false := by
        simp only [decide_eq_false_iff_not]; omega
      simp only [enumFrom, List.filter_cons, d1, d2, d3, if_true, if_false,
        Bool.false_eq_true, List.map_cons, List.cons_append]
      rw [ih (s + 1) a k hk]
    · by_cases h2 : s < a + k
      · have d1 : decide ((s : ℕ) < a) = false := by
          simp only [decide_eq_false_iff_not]; omega
        have d2 : decide ((s : ℕ) ∈ List.range' a k) = true := by
          simp only [decide_eq_true_eq, mem_range'_iff]; omega
        have d3 : decide (a + k - 1 < s) = false := by
          simp only [decide_eq_false_iff_not]; omega
        have e1 : (enumFrom (s + 1) xs).filter
            (fun q => decide (q.1 < a)) = [] :=
          filter_enumFrom_lt_nil (by omega)
        have IH := ih (s + 1) a k hk
        rw [e1] at IH
        simp only [List.map_nil, List.nil_append] at IH
        simp only [enumFrom, List.filter_cons, d1, d2, d3, if_true, if_false,
          Bool.false_eq_true, List.map_cons, List.cons_append, e1,
          List.map_nil, List.nil_append]
        rw [IH]
      · have d1 : decide ((s : ℕ) < a) = false := by
          simp only [decide_eq_false_iff_not]; omega
        have d2 : decide ((s : ℕ) ∈ List.range' a k) = false := by
          simp only [decide_eq_false_iff_not, mem_range'_iff]; omega
        have d3 : decide (a + k - 1 < s) = true := by
          simp only [decide_eq_true_eq]; omega
        have e1 : (enumFrom (s + 1) xs).filter
            (fun q => decide (q.1 < a)) = [] :=
          filter_enumFrom_lt_nil (by omega)
        have e2 : (enumFrom (s + 1) xs).filter
            (fun q => decide (q.1 ∈ List.range' a k)) = [] :=
          filter_enumFrom_range'_nil (by omega)
        have IH := ih (s + 1) a k hk
        rw [e1, e2] at IH
        simp only [List.map_nil, List.nil_append] at IH
        simp only [enumFrom, List.filter_cons, d1, d2, d3, if_true, if_false,
          Bool.false_eq_true, List.map_cons, List.cons_append, e1, e2,
          List.map_nil, List.nil_append]
        rw [IH]

/-! ### Facts about the validation scan `check_section` -/

theorem check_section_false {fl : List String} {F : List ℕ} {mi : ℕ} :
    ∀ {ms : List ℕ}, check_section fl F mi ms = .ok false →
      ∀ ln ∈ ms, ∃ line, pyGetI fl ((ln : ℤ) - 1) = .ok line ∧
        is_function_or_class_declaration line = false ∧
        get_indentation_level line ∉ F ∧
        is_decorator line = false ∧ mi ∉ F := by
  intro ms
  induction ms with
  | nil => intro _ ln hln; simp at hln
  | cons x xs ih =>
    intro h ln hln
    simp only [check_section] at h
    cases hx : pyGetI fl ((x : ℤ) - 1) with
    | error er => simp only [hx] at h; exact absurd h (by simp)
    | ok line =>
      simp only [hx] at h
      by_cases hc : (is_function_or_class_declaration line
          || decide (get_indentation_level line ∈ F)
          || is_decorator line
          || decide (mi ∈ F)) = true
      · rw [if_pos hc] at h; simp at h
      · rw [if_neg hc] at h
        simp only [Bool.not_eq_true] at hc
        simp only [Bool.or_eq_false_iff, decide_eq_false_iff_not] at hc
        obtain ⟨⟨⟨h1, h2⟩, h3⟩, h4⟩ := hc
        rcases List.mem_cons.mp hln with rfl | hmem
        · exact ⟨line, hx, h1, h2, h3, h4⟩
        · exact ih h ln hmem

theorem check_section_total {fl : List String} {F : List ℕ} {mi : ℕ} :
    ∀ {ms : List ℕ},
      (∀ ln ∈ ms, ∃ line, pyGetI fl ((ln : ℤ) - 1) = .ok line) →
      ∃ bl, check_section fl F mi ms = .ok bl := by
  intro ms
  induction ms with
  | nil => intro _; exact ⟨false, rfl⟩
  | cons x xs ih =>
    intro h
    obtain ⟨line, hline⟩ := h x (by simp)
    obtain ⟨bl, hbl⟩ := ih fun ln hln => h ln (List.mem_cons_of_mem x hln)
    by_cases hc : (is_function_or_class_declaration line
        || decide (get_indentation_level line ∈ F)
        || is_decorator line
        || decide (mi ∈ F)) = true
    · exact ⟨true, by simp only [check_section, hline, if_pos hc]⟩
    · exact ⟨bl, by simp only [check_section, hline, if_neg hc]; exact hbl⟩

/-! ### Extraction lemmas for the span sampler -/

theorem sample_attempt_ok_some {fl : List String} {e : List ℕ}
    {minM maxM : ℕ} {F : List ℕ} {s t : ℕ} {m : List ℕ}
    (h : sample_attempt fl e minM maxM F s t = .ok (some m)) :
    ∃ d a b,
      py_randint minM maxM t = .ok d ∧
      pyGetI e ((min s (e.length - minM) : ℕ) : ℤ) = .ok a ∧
      pyGetI e ((min (min s (e.length - minM) + d) (e.length - 1) : ℕ) : ℤ)
        = .ok b ∧
      m = List.range' a (b - a) ∧ a < b ∧
      ∃ fl0, pyGetI fl ((a : ℤ) - 1) = .ok fl0 ∧
        check_section fl F (get_indentation_level fl0) m = .ok false := by
  simp only [sample_attempt] at h
  cases hr : py_randint minM maxM t with
  | error er => simp only [hr] at h; exact absurd h (by simp)
  | ok d =>
    simp only [hr] at h
    cases ha : pyGetI e ((min s (e.length - minM) : ℕ) : ℤ) with
    | error er => simp only [ha] at h; exact absurd h (by simp)
    | ok a =>
      simp only [ha] at h
      cases hb : pyGetI e
          ((min (min s (e.length - minM) + d) (e.length - 1) : ℕ) : ℤ) with
      | error er => simp only [hb] at h; exact absurd h (by simp)
      | ok b =>
        simp only [hb] at h
        cases hm : List.range' a (b - a) with
        | nil => simp only [hm] at h; exact absurd h (by simp)
        | cons m0 tl =>
          simp only [hm] at h
          have hne : b - a ≠ 0 := by
            intro h0; rw [h0] at hm; simp at hm
          have hm0 : m0 = a := by
            obtain ⟨k', hk'⟩ : ∃ k', b - a = k' + 1 := ⟨b - a - 1, by omega⟩
            rw [hk', List.range'_succ] at hm
            injection hm with h1 _
            exact h1.symm
          cases hf : pyGetI fl ((m0 : ℤ) - 1) with
          | error er => simp only [hf] at h; exact absurd h (by simp)
          | ok fl0 =>
            simp only [hf] at h
            cases hc : check_section fl F (get_indentation_level fl0)
                (m0 :: tl) with
            | error er => simp only [hc] at h; exact absurd h (by simp)
            | ok bl =>
              cases bl with
              | true => simp only [hc] at h; exact absurd h (by simp)
              | false =>
                simp only [hc, Except.ok.injEq, Option.some.injEq] at h
                refine ⟨d, a, b, rfl, rfl, hb, ?_, by omega, fl0, ?_, ?_⟩
                · exact h.symm.trans hm.symm
                · exact hm0 ▸ hf
                · exact h ▸ hc

theorem sample_loop_ok_some {fl : List String} {e : List ℕ}
    {minM maxM : ℕ} {F : List ℕ} {tape : ℕ → ℕ × ℕ} :
    ∀ {fuel k : ℕ} {m : List ℕ},
      sample_loop fl e minM maxM F tape fuel k = .ok (some m) →
      ∃ j, k ≤ j ∧ j < k + fuel ∧
        sample_attempt fl e minM maxM F (tape j).1 (tape j).2
          = .ok (some m) := by
  intro fuel
  induction fuel with
  | zero => intro k m h; simp [sample_loop] at h
  | succ n ih =>
    intro k m h
    simp only [sample_loop] at h
    cases hA : sample_attempt fl e minM maxM F (tape k).1 (tape k).2 with
    | error er => simp only [hA] at h; exact absurd h (by simp)
    | ok o =>
      cases o with
      | some m' =>
        simp only [hA, Except.ok.injEq, Option.some.injEq] at h
        subst h
        exact ⟨k, le_rfl, by omega, hA⟩
      | none =>
        simp only [hA] at h
        obtain ⟨j, hj1, hj2, hj3⟩ := ih h
        exact ⟨j, by omega, by omega, hj3⟩

theorem randomly_select_ok_some {fl : List String} {e : List ℕ}
    {minM maxM : ℕ} {tape : ℕ → ℕ × ℕ} {m : List ℕ}
    (h : randomly_select_middle_section fl e minM maxM tape = .ok (some m)) :
    minM ≤ e.length ∧ ∃ e0, pyGetI e 0 = .ok e0 ∧
      ∃ j, j < 10 ∧ sample_attempt fl e minM maxM
        (prefix_function_indents fl e0) (tape j).1 (tape j).2
        = .ok (some m) := by
  unfold randomly_select_middle_section at h
  split at h
  · exact absurd h (by simp)
  · next hlen =>
    cases he : pyGetI e 0 with
    | error er => simp only [he] at h; exact absurd h (by simp)
    | ok e0 =>
      simp only [he] at h
      obtain ⟨j, _, hj2, hj3⟩ := sample_loop_ok_some h
      exact ⟨by omega, e0, rfl, j, by omega, hj3⟩

/-! ### Facts about `split_code` -/

theorem split_code_ok_some {fl : List String} {ms : List ℕ}
    {p m s : String}
    (h : split_code fl ms = .ok (some (p, m, s))) :
    ∃ m0 rest, ms = m0 :: rest ∧
      p = String.join (((enumFrom 1 fl).filter
        (fun q => decide (q.1 < rest.foldl min m0))).map Prod.snd) ∧
      contains_function_definition_with_body (((enumFrom 1 fl).filter
        (fun q => decide (q.1 < rest.foldl min m0))).map Prod.snd) = true ∧
      m = String.join (((enumFrom 1 fl).filter
        (fun q => decide (q.1 ∈ m0 :: rest))).map Prod.snd) ∧
      s = String.join (((enumFrom 1 fl).filter
        (fun q => decide (rest.foldl max m0 < q.1))).map Prod.snd) := by
  cases ms with
  | nil => simp [split_code] at h
  | cons m0 rest =>
    simp only [split_code] at h
    by_cases hc : contains_function_definition_with_body
        (((enumFrom 1 fl).filter
          (fun q => decide (q.1 < rest.foldl min m0))).map Prod.snd) = true
    · rw [if_pos hc] at h
      simp only [Except.ok.injEq, Option.some.injEq, Prod.mk.injEq] at h
      obtain ⟨h1, h2, h3⟩ := h
      exact ⟨m0, rest, rfl, h1.symm, hc, h2.symm, h3.symm⟩
    · rw [if_neg hc] at h
      exact absurd h (by simp)

theorem split_code_range'_join {fl : List String} {a k : ℕ} (hk : 0 < k)
    {p m s : String}
    (h : split_code fl (List.range' a k) = .ok (some (p, m, s))) :
    p ++ m ++ s = String.join fl := by
  obtain ⟨m0, rest, hms, hp, hc, hm, hs⟩ := split_code_ok_some h
  obtain ⟨k', rfl⟩ : ∃ k', k = k' + 1 := ⟨k - 1, by omega⟩
  rw [List.range'_succ] at hms
  injection hms with h1 h2
  subst h1
  subst h2
  have hlo : (List.range' (a + 1) k').foldl min a = a :=
    foldl_min_eq fun x hx => by
      have := mem_range'_iff.mp hx; omega
  have hhi : (List.range' (a + 1) k').foldl max a = a + k' := by
    rcases Nat.eq_zero_or_pos k' with h0 | h0
    · subst h0; simp
    · rw [foldl_max_range' k' (a + 1) a (Nat.lt_succ_self a)]
      rw [if_neg (by omega)]
      omega
  rw [hlo] at hp
  rw [hhi] at hs
  subst hp; subst hm; subst hs
  rw [← join_append, ← join_append]
  have hpart := enum_partition fl 1 a (k' + 1) (Nat.succ_pos k')
  rw [show (a :: List.range' (a + 1) k') = List.range' a (k' + 1) from
    (List.range'_succ a k' 1).symm]
  rw [show a + (k' + 1) - 1 = a + k' from by omega] at hpart
  rw [hpart]

/-! ### The sampler never produces the fuel marker -/

theorem pyGetI_ne_outOfFuel {α : Type} {l : List α} {i : ℤ} :
    pyGetI l i ≠ .error .outOfFuel := by
  unfold pyGetI
  split
  · split
    · split <;> simp
    · simp
  · split <;> simp

theorem py_randint_ne_outOfFuel {lo hi t : ℕ} :
    py_randint lo hi t ≠ .error .outOfFuel := by
  unfold py_randint
  split <;> simp

theorem check_section_ne_outOfFuel {fl : List String} {F : List ℕ} {mi : ℕ} :
    ∀ {ms : List ℕ}, check_section fl F mi ms ≠ .error .outOfFuel := by
  intro ms
  induction ms with
  | nil => simp [check_section]
  | cons x xs ih =>
    intro h
    simp only [check_section] at h
    cases hx : pyGetI fl ((x : ℤ) - 1) with
    | error er =>
      simp only [hx] at h
      have : er = PyErr.outOfFuel := by injection h
      subst this
      exact pyGetI_ne_outOfFuel hx
    | ok line =>
      simp only [hx] at h
      split at h
      · exact absurd h (by simp)
      · exact ih h

theorem sample_attempt_ne_outOfFuel {fl : List String} {e : List ℕ}
    {minM maxM : ℕ} {F : List ℕ} {s t : ℕ} :
    sample_attempt fl e minM maxM F s t ≠ .error .outOfFuel := by
  intro h
  simp only [sample_attempt] at h
  cases hr : py_randint minM maxM t with
  | error er =>
    simp only [hr] at h
    have : er = PyErr.outOfFuel := by injection h
    subst this
    exact py_randint_ne_outOfFuel hr
  | ok d =>
    simp only [hr] at h
    cases ha : pyGetI e ((min s (e.length - minM) : ℕ) : ℤ) with
    | error er =>
      simp only [ha] at h
      have : er = PyErr.outOfFuel := by injection h
      subst this
      exact pyGetI_ne_outOfFuel ha
    | ok a =>
      simp only [ha] at h
      cases hb : pyGetI e
          ((min (min s (e.length - minM) + d) (e.length - 1) : ℕ) : ℤ) with
      | error er =>
        simp only [hb] at h
        have : er = PyErr.outOfFuel := by injection h
        subst this
        exact pyGetI_ne_outOfFuel hb
      | ok b =>
        simp only [hb] at h
        cases hm : List.range' a (b - a) with
        | nil => simp only [hm] at h; exact absurd h (by simp)
        | cons m0 tl =>
          simp only [hm] at h
          cases hf : pyGetI fl ((m0 : ℤ) - 1) with
          | error er =>
            simp only [hf] at h
            have : er = PyErr.outOfFuel := by injection h
            subst this
            exact pyGetI_ne_outOfFuel hf
          | ok fl0 =>
            simp only [hf] at h
            cases hcs : check_section fl F (get_indentation_level fl0)
                (m0 :: tl) with
            | error er =>
              simp only [hcs] at h
              have : er = PyErr.outOfFuel := by injection h
              subst this
              exact check_section_ne_outOfFuel hcs
            | ok bl =>
              cases bl <;> simp only [hcs] at h <;> exact absurd h (by simp)

theorem sample_loop_ne_outOfFuel {fl : List String} {e : List ℕ}
    {minM maxM : ℕ} {F : List ℕ} {tape : ℕ → ℕ × ℕ} :
    ∀ {fuel k : ℕ},
      sample_loop fl e minM maxM F tape fuel k ≠ .error .outOfFuel := by
  intro fuel
  induction fuel with
  | zero => intro k; simp [sample_loop]
  | succ n ih =>
    intro k h
    simp only [sample_loop] at h
    cases hA : sample_attempt fl e minM maxM F (tape k).1 (tape k).2 with
    | error er =>
      simp only [hA] at h
      have : er = PyErr.outOfFuel := by injection h
      subst this
      exact sample_attempt_ne_outOfFuel hA
    | ok o =>
      cases o with
      | some m => simp only [hA] at h; exact absurd h (by simp)
      | none => simp only [hA] at h; exact ih h

theorem randomly_select_ne_outOfFuel {fl : List String} {e : List ℕ}
    {minM maxM : ℕ} {tape : ℕ → ℕ × ℕ} :
    randomly_select_middle_section fl e minM maxM tape
      ≠ .error .outOfFuel := by
  intro h
  unfold randomly_select_middle_section at h
  split at h
  · exact absurd h (by simp)
  · cases he0 : pyGetI e (0 : ℤ) with
    | error er =>
      simp only [he0] at h
      have : er = PyErr.outOfFuel := by injection h
      subst this
      exact pyGetI_ne_outOfFuel he0
    | ok e0 =>
      simp only [he0] at h
      exact sample_loop_ne_outOfFuel h

/-! ### Facts about the example-builder loop -/

theorem generate_loop_mem {fs : String → Option (List String)}
    {all_files : List (String × List ℕ)} {N M : ℕ}
    {tape : ℕ → ℕ × (ℕ → ℕ × ℕ)} :
    ∀ {fuel : ℕ} {examples : List FimExample} {retries it : ℕ}
      {res : List FimExample},
      generate_loop fs all_files N M tape fuel examples retries it = .ok res →
      ∀ ex ∈ res, ex ∈ examples ∨ AcceptedExample fs all_files ex := by
  intro fuel
  induction fuel with
  | zero =>
    intro examples retries it res h ex _
    simp [generate_loop] at h
  | succ n ih =>
    intro examples retries it res h ex hex
    cases all_files with
    | nil =>
      simp only [generate_loop] at h
      split at h
      · simp only [Except.ok.injEq] at h
        subst h
        exact Or.inl hex
      · exact absurd h (by simp)
    | cons f0 rest_files =>
      simp only [generate_loop] at h
      by_cases hguard : N ≤ examples.length ∨ M ≤ retries
      · rw [if_pos hguard] at h
        simp only [Except.ok.injEq] at h
        subst h
        exact Or.inl hex
      · rw [if_neg hguard] at h
        set c := (f0 :: rest_files).get
          ⟨(tape it).1 % (f0 :: rest_files).length,
            Nat.mod_lt _ (Nat.succ_pos rest_files.length)⟩ with hc
        by_cases hemp : c.2 = []
        · rw [if_pos hemp] at h
          exact ih h ex hex
        · rw [if_neg hemp] at h
          cases hfs : fs c.1 with
          | none => simp only [hfs] at h; exact absurd h (by simp)
          | some fl =>
            simp only [hfs] at h
            cases hsel : randomly_select_middle_section fl c.2 1 10
                (tape it).2 with
            | error er => simp only [hsel] at h; exact absurd h (by simp)
            | ok o =>
              cases o with
              | none => simp only [hsel] at h; exact ih h ex hex
              | some mids =>
                simp only [hsel] at h
                by_cases hemp2 : mids = []
                · rw [if_pos hemp2] at h
                  exact ih h ex hex
                · rw [if_neg hemp2] at h
                  cases hsp : split_code fl mids with
                  | error er => simp only [hsp] at h; exact absurd h (by simp)
                  | ok o2 =>
                    cases o2 with
                    | none => simp only [hsp] at h; exact ih h ex hex
                    | some pms =>
                      simp only [hsp] at h
                      by_cases hgate : pms.1 ≠ "" ∧ py_strip pms.2.1 ≠ ""
                      · rw [if_pos hgate] at h
                        rcases ih h ex hex with hmem | hacc
                        · rcases List.mem_append.mp hmem with h1 | h2
                          · exact Or.inl h1
                          · right
                            have hex2 : ex = ⟨c.1, pms.1, pms.2.1, pms.2.2⟩ :=
                              by simpa using h2
                            subst hex2
                            refine ⟨c.2, fl, (tape it).2, mids, ?_, hfs, hsel,
                              hemp2, ?_, hgate.1, hgate.2⟩
                            · rw [hc]
                              exact List.get_mem _ _ _
                            · exact hsp
                        · exact Or.inr hacc
                      · rw [if_neg hgate] at h
                        exact ih h ex hex

theorem generate_loop_fuel_enough {fs : String → Option (List String)}
    {all_files : List (String × List ℕ)} {N M : ℕ}
    {tape : ℕ → ℕ × (ℕ → ℕ × ℕ)} :
    ∀ {fuel : ℕ} {examples : List FimExample} {retries it : ℕ},
      (N - examples.length) * (M + 1) + (M - retries) < fuel →
      generate_loop fs all_files N M tape fuel examples retries it
        ≠ .error .outOfFuel := by
  intro fuel
  induction fuel with
  | zero => intro examples retries it hm; omega
  | succ n ih =>
    intro examples retries it hm h
    cases all_files with
    | nil =>
      simp only [generate_loop] at h
      split at h <;> simp_all
    | cons f0 rest_files =>
      simp only [generate_loop] at h
      by_cases hguard : N ≤ examples.length ∨ M ≤ retries
      · rw [if_pos hguard] at h
        exact absurd h (by simp)
      · rw [if_neg hguard] at h
        push_neg at hguard
        obtain ⟨hlen, hret⟩ := hguard
        have hretry : (N - examples.length) * (M + 1) + (M - (retries + 1))
            < n := by
          generalize (N - examples.length) * (M + 1) = P at hm ⊢
          omega
        have hsucc : ∀ ex' : FimExample,
            (N - (examples ++ [ex']).length) * (M + 1) + (M - 0) < n := by
          intro ex'
          have key : (N - examples.length) * (M + 1)
              = (N - (examples.length + 1)) * (M + 1) + (M + 1) := by
            rw [show N - examples.length = (N - (examples.length + 1)) + 1 from
              by omega, Nat.succ_mul]
          rw [List.length_append, List.length_singleton]
          rw [key] at hm
          generalize (N - (examples.length + 1)) * (M + 1) = Q at hm ⊢
          omega
        set c := (f0 :: rest_files).get
          ⟨(tape it).1 % (f0 :: rest_files).length,
            Nat.mod_lt _ (Nat.succ_pos rest_files.length)⟩ with hc
        by_cases hemp : c.2 = []
        · rw [if_pos hemp] at h
          exact ih hretry h
        · rw [if_neg hemp] at h
          cases hfs : fs c.1 with
          | none => simp only [hfs] at h; exact absurd h (by simp)
          | some fl =>
            simp only [hfs] at h
            cases hsel : randomly_select_middle_section fl c.2 1 10
                (tape it).2 with
            | error er =>
              simp only [hsel] at h
              have her : er = .outOfFuel := by injection h
              subst her
              exact randomly_select_ne_outOfFuel hsel
            | ok o =>
              cases o with
              | none => simp only [hsel] at h; exact ih hretry h
              | some mids =>
                simp only [hsel] at h
                by_cases hemp2 : mids = []
                · rw [if_pos hemp2] at h
                  exact ih hretry h
                · rw [if_neg hemp2] at h
                  cases hsp : split_code fl mids with
                  | error er =>
                    simp only [hsp] at h
                    have her : er = .outOfFuel := by injection h
                    subst her
                    cases mids with
                    | nil => exact hemp2 rfl
                    | cons m0 rest =>
                      simp only [split_code] at hsp
                      split at hsp <;> simp_all
                  | ok o2 =>
                    cases o2 with
                    | none => simp only [hsp] at h; exact ih hretry h
                    | some pms =>
                      simp only [hsp] at h
                      by_cases hgate : pms.1 ≠ "" ∧ py_strip pms.2.1 ≠ ""
                      · rw [if_pos hgate] at h
                        exact ih (hsucc _) h
                      · rw [if_neg hgate] at h
                        exact ih hretry h

/-- The fuel bound supplied by `generate_random_examples` strictly dominates
the loop variant, so the fuel-exhaustion marker is unreachable: the fuel
embedding is faithful to the unbounded Python `while` loop. -/
theorem generate_random_examples_never_out_of_fuel
    (fs : String → Option (List String))
    (all_files : List (String × List ℕ)) (N M : ℕ)
    (tape : ℕ → ℕ × (ℕ → ℕ × ℕ)) :
    generate_random_examples fs all_files N M tape ≠ .error .outOfFuel := by
  unfold generate_random_examples
  apply generate_loop_fuel_enough
  have h : (N + 1) * (M + 1) = N * (M + 1) + (M + 1) := Nat.succ_mul N (M + 1)
  simp only [List.length_nil, Nat.sub_zero]
  rw [h]
  generalize N * (M + 1) = P
  omega

theorem generate_random_examples_mem {fs : String → Option (List String)}
    {all_files : List (String × List ℕ)} {N M : ℕ}
    {tape : ℕ → ℕ × (ℕ → ℕ × ℕ)} {res : List FimExample}
    (h : generate_random_examples fs all_files N M tape = .ok res) :
    ∀ ex ∈ res, AcceptedExample fs all_files ex := by
  intro ex hex
  rcases generate_loop_mem h ex hex with hmem | hacc
  · simp at hmem
  · exact hacc

/-! ### Index safety of the sampler -/

theorem py_randint_error {lo hi t : ℕ} {er : PyErr}
    (h : py_randint lo hi t = .error er) : er = .valueError := by
  unfold py_randint at h
  split at h
  · injection h with h1
    exact h1.symm
  · exact absurd h (by simp)

theorem sample_attempt_safe {fl : List String} {e : List ℕ}
    {minM maxM : ℕ} {F : List ℕ} {s t : ℕ}
    (hmin : 1 ≤ minM) (hlen : minM ≤ e.length)
    (hbound : ∀ x ∈ e, 1 ≤ x ∧ x ≤ fl.length) :
    (∀ er, sample_attempt fl e minM maxM F s t = .error er →
      er = .valueError) ∧
    (∀ m ln, sample_attempt fl e minM maxM F s t = .ok (some m) → ln ∈ m →
      1 ≤ ln ∧ ln ≤ fl.length) := by
  cases hr : py_randint minM maxM t with
  | error er0 =>
    constructor
    · intro er hctr
      simp only [sample_attempt, hr] at hctr
      have : er0 = er := by injection hctr
      subst this
      exact py_randint_error hr
    · intro m ln hctr
      simp only [sample_attempt, hr] at hctr
      exact absurd hctr (by simp)
  | ok d =>
    have hsi : min s (e.length - minM) < e.length := by omega
    have ha := pyGetI_lt hsi
    have haB := hbound _ (List.get_mem e _ hsi)
    have hei : min (min s (e.length - minM) + d) (e.length - 1)
        < e.length := by omega
    have hb := pyGetI_lt hei
    have hbB := hbound _ (List.get_mem e _ hei)
    cases hm : List.range' (e.get ⟨min s (e.length - minM), hsi⟩)
        ((e.get ⟨min (min s (e.length - minM) + d) (e.length - 1), hei⟩)
          - (e.get ⟨min s (e.length - minM), hsi⟩)) with
    | nil =>
      constructor
      · intro er hctr
        simp only [sample_attempt, hr, ha, hb, hm] at hctr
        exact absurd hctr (by simp)
      · intro m ln hctr
        simp only [sample_attempt, hr, ha, hb, hm] at hctr
        exact absurd hctr (by simp)
    | cons m0 tl =>
      have hmem0 : m0 ∈ List.range'
          (e.get ⟨min s (e.length - minM), hsi⟩)
          ((e.get ⟨min (min s (e.length - minM) + d) (e.length - 1), hei⟩)
            - (e.get ⟨min s (e.length - minM), hsi⟩)) := by
        rw [hm]; exact List.mem_cons_self _ _
      have hne : (e.get ⟨min (min s (e.length - minM) + d) (e.length - 1),
          hei⟩) - (e.get ⟨min s (e.length - minM), hsi⟩) ≠ 0 := by
        intro h0
        rw [h0] at hm
        simp at hm
      have hb0 := mem_range'_iff.mp hmem0
      have hm0fl : m0 - 1 < fl.length := by omega
      have hf : pyGetI fl ((m0 : ℤ) - 1)
          = .ok (fl.get ⟨m0 - 1, hm0fl⟩) := by
        rw [pyGetI_sub_one fl (by omega)]
        exact pyGetI_lt hm0fl
      have hall : ∀ ln ∈ m0 :: tl, 1 ≤ ln ∧ ln ≤ fl.length := by
        intro ln hln
        rw [← hm] at hln
        have := mem_range'_iff.mp hln
        omega
      obtain ⟨bl, hbl⟩ := @check_section_total fl F
        (get_indentation_level (fl.get ⟨m0 - 1, hm0fl⟩)) (m0 :: tl)
        (fun ln hln => by
          have hb1 := hall ln hln
          exact ⟨fl.get ⟨ln - 1, by omega⟩, by
            rw [pyGetI_sub_one fl (by omega)]
            exact pyGetI_lt (by omega)⟩)
      constructor
      · intro er hctr
        cases bl with
        | true =>
          simp only [sample_attempt, hr, ha, hb, hm, hf, hbl] at hctr
          exact absurd hctr (by simp)
        | false =>
          simp only [sample_attempt, hr, ha, hb, hm, hf, hbl] at hctr
          exact absurd hctr (by simp)
      · intro m ln hok hln
        simp only [sample_attempt, hr, ha, hb, hm, hf, hbl] at hok
        cases bl with
        | true => exact absurd hok (by simp)
        | false =>
          simp only [Except.ok.injEq, Option.some.injEq] at hok
          subst hok
          exact hall ln hln

theorem sample_loop_safe {fl : List String} {e : List ℕ}
    {minM maxM : ℕ} {F : List ℕ} {tape : ℕ → ℕ × ℕ}
    (hmin : 1 ≤ minM) (hlen : minM ≤ e.length)
    (hbound : ∀ x ∈ e, 1 ≤ x ∧ x ≤ fl.length) :
    ∀ {fuel k : ℕ},
      (∀ er, sample_loop fl e minM maxM F tape fuel k = .error er →
        er = .valueError) ∧
      (∀ m ln, sample_loop fl e minM maxM F tape fuel k = .ok (some m) →
        ln ∈ m → 1 ≤ ln ∧ ln ≤ fl.length) := by
  intro fuel
  induction fuel with
  | zero =>
    intro k
    constructor
    · intro er hctr; simp [sample_loop] at hctr
    · intro m ln hctr; simp [sample_loop] at hctr
  | succ n ih =>
    intro k
    constructor
    · intro er hctr
      simp only [sample_loop] at hctr
      cases hr : sample_attempt fl e minM maxM F (tape k).1 (tape k).2 with
      | error er0 =>
        simp only [hr] at hctr
        have : er0 = er := by injection hctr
        subst this
        exact (sample_attempt_safe hmin hlen hbound).1 _ hr
      | ok o =>
        cases o with
        | some m => simp only [hr] at hctr; exact absurd hctr (by simp)
        | none =>
          simp only [hr] at hctr
          exact (ih (k := k + 1)).1 er hctr
    · intro m ln hok hln
      simp only [sample_loop] at hok
      cases hr : sample_attempt fl e minM maxM F (tape k).1 (tape k).2 with
      | error er0 => simp only [hr] at hok; exact absurd hok (by simp)
      | ok o =>
        cases o with
        | some m' =>
          simp only [hr, Except.ok.injEq, Option.some.injEq] at hok
          subst hok
          exact (sample_attempt_safe hmin hlen hbound).2 _ ln hr hln
        | none =>
          simp only [hr] at hok
          exact (ih (k := k + 1)).2 m ln hok hln

theorem randomly_select_safe {fl : List String} {e : List ℕ}
    {minM maxM : ℕ} {tape : ℕ → ℕ × ℕ}
    (hmin : 1 ≤ minM) (hbound : ∀ x ∈ e, 1 ≤ x ∧ x ≤ fl.length) :
    (∀ er, randomly_select_middle_section fl e minM maxM tape = .error er →
      er = .valueError) ∧
    (∀ m ln, randomly_select_middle_section fl e minM maxM tape
        = .ok (some m) → ln ∈ m → 1 ≤ ln ∧ ln ≤ fl.length) := by
  by_cases hlen : e.length < minM
  · constructor
    · intro er hctr
      unfold randomly_select_middle_section at hctr
      rw [if_pos hlen] at hctr
      exact absurd hctr (by simp)
    · intro m ln hctr
      unfold randomly_select_middle_section at hctr
      rw [if_pos hlen] at hctr
      exact absurd hctr (by simp)
  · have h0 : 0 < e.length := by omega
    have he0 : pyGetI e (0 : ℤ) = .ok (e.get ⟨0, h0⟩) := by
      have := pyGetI_lt h0
      simpa using this
    constructor
    · intro er hctr
      unfold randomly_select_middle_section at hctr
      rw [if_neg hlen] at hctr
      simp only [he0] at hctr
      exact (sample_loop_safe hmin (by omega) hbound).1 er hctr
    · intro m ln hok hln
      unfold randomly_select_middle_section at hok
      rw [if_neg hlen] at hok
      simp only [he0] at hok
      exact (sample_loop_safe hmin (by omega) hbound).2 m ln hok hln

/-! ### Claim theorems -/

/-- C1: for every Example accepted by the Example Builder
(`generate_random_examples`), the concatenation
`prefix ++ middle ++ suffix` equals the original file's full text — the
concatenation of all of that file's lines, each retaining its trailing line
terminator (`String.join` of the `readlines` result). -/
theorem claim1_split_reconstruction {fs : String → Option (List String)}
    {all_files : List (String × List ℕ)} {N M : ℕ}
    {tape : ℕ → ℕ × (ℕ → ℕ × ℕ)} {res : List FimExample} {ex : FimExample}
    (hrun : generate_random_examples fs all_files N M tape = .ok res)
    (hex : ex ∈ res) :
    ∃ fl, fs ex.file_path = some fl ∧
      ex.prefixPart ++ ex.middlePart ++ ex.suffixPart = String.join fl := by
  obtain ⟨e, fl, tp, mids, _, hfs, hsel, _, hsp, _, _⟩ :=
    generate_random_examples_mem hrun ex hex
  obtain ⟨_, e0, _, j, _, hAtt⟩ := randomly_select_ok_some hsel
  obtain ⟨d, a, b, _, _, _, hmr, hab, _⟩ := sample_attempt_ok_some hAtt
  subst hmr
  exact ⟨fl, hfs, split_code_range'_join (by omega) hsp⟩

/-- Witness for C1 at a concrete run producing one accepted example. -/
theorem claim1_witness :
    generate_random_examples fsC filesC 1 100 tapeOne = .ok [exC] ∧
    ∃ fl, fsC exC.file_path = some fl ∧
      exC.prefixPart ++ exC.middlePart ++ exC.suffixPart = String.join fl :=
  ⟨rfl, claim1_split_reconstruction
    (show generate_random_examples fsC filesC 1 100 tapeOne = .ok [exC]
      from rfl) (List.mem_singleton_self exC)⟩

/-- C5: for every Example accepted by the Example Builder, the prefix is the
join of a line sequence containing a definition header whose immediately
following line is indented (`contains_function_definition_with_body`). -/
theorem claim5_prefix_admissibility {fs : String → Option (List String)}
    {all_files : List (String × List ℕ)} {N M : ℕ}
    {tape : ℕ → ℕ × (ℕ → ℕ × ℕ)} {res : List FimExample} {ex : FimExample}
    (hrun : generate_random_examples fs all_files N M tape = .ok res)
    (hex : ex ∈ res) :
    ∃ pls, ex.prefixPart = String.join pls ∧
      contains_function_definition_with_body pls = true := by
  obtain ⟨e, fl, tp, mids, _, _, _, _, hsp, _, _⟩ :=
    generate_random_examples_mem hrun ex hex
  obtain ⟨m0, rest, _, hp, hcf, _, _⟩ := split_code_ok_some hsp
  exact ⟨_, hp, hcf⟩

/-- Witness for C5 at a concrete run producing one accepted example. -/
theorem claim5_witness :
    generate_random_examples fsC filesC 1 100 tapeOne = .ok [exC] ∧
    ∃ pls, exC.prefixPart = String.join pls ∧
      contains_function_definition_with_body pls = true :=
  ⟨rfl, claim5_prefix_admissibility
    (show generate_random_examples fsC filesC 1 100 tapeOne = .ok [exC]
      from rfl) (List.mem_singleton_self exC)⟩

/-- C10: with `min_middle ≥ 1` and every executed line number within
`[1, len(file_lines)]`, `randomly_select_middle_section` never raises from
sequence indexing (any raised error is the `ValueError` of
`random.randint`, not an `IndexError`), and every non-`None` result contains
only line numbers within `[1, len(file_lines)]`. -/
theorem claim10_index_safety {fl : List String} {e : List ℕ}
    {minM maxM : ℕ} {tape : ℕ → ℕ × ℕ} (hmin : 1 ≤ minM)
    (hbound : ∀ x ∈ e, 1 ≤ x ∧ x ≤ fl.length) :
    randomly_select_middle_section fl e minM maxM tape
      ≠ .error .indexError ∧
    ∀ m ln, randomly_select_middle_section fl e minM maxM tape
      = .ok (some m) → ln ∈ m → 1 ≤ ln ∧ ln ≤ fl.length := by
  constructor
  · intro hctr
    exact PyErr.noConfusion ((randomly_select_safe hmin hbound).1 _ hctr)
  · exact (randomly_select_safe hmin hbound).2

/-- Witness for C10 at a concrete input. -/
theorem claim10_witness :
    ((1 : ℕ) ≤ 1 ∧ ∀ x ∈ ([2] : List ℕ), 1 ≤ x ∧ x ≤ flSingle.length) ∧
    (randomly_select_middle_section flSingle [2] 1 10 tapeFail
        ≠ .error .indexError ∧
      ∀ m ln, randomly_select_middle_section flSingle [2] 1 10 tapeFail
        = .ok (some m) → ln ∈ m → 1 ≤ ln ∧ ln ≤ flSingle.length) :=
  ⟨⟨le_rfl, by decide⟩, claim10_index_safety le_rfl (by decide)⟩

/-- C2, counterexample: a run of the Example Builder accepts an example whose
middle consists of the single line `"    b = 2\n"` (depth 4) although the
prefix contains the definition header `"    def h():\n"` of the same depth 4 —
so a middle line's indentation depth does collide with the depth of a
definition header found in the prefix, contradicting the claim.  (The code
only forbids depths of headers in `file_lines[:executed_lines[0]]`, here
`[0]`.) -/
theorem claim2_counterexample :
    generate_random_examples fsC filesC 1 100 tapeOne = .ok [exC] ∧
    exC.prefixPart = String.join (flC.take 5) ∧
    "    def h():\n" ∈ flC.take 5 ∧
    is_function_or_class_declaration "    def h():\n" = true ∧
    exC.middlePart = "    b = 2\n" ∧
    get_indentation_level "    b = 2\n"
      = get_indentation_level "    def h():\n" :=
  ⟨rfl, by decide, by decide, by decide, rfl, by decide⟩

/-- C2, amended: for every Example accepted by the Example Builder, no line of
middle is a definition header or a decorator, and no line of middle has an
indentation depth in the forbidden set — where the forbidden depths are those
of the definition headers among `file_lines[:executed_lines[0]]` (the lines up
to and including the file's first executed line, `prefix_function_indents`),
not of all headers found in the prefix. -/
theorem claim2_middle_purity {fs : String → Option (List String)}
    {all_files : List (String × List ℕ)} {N M : ℕ}
    {tape : ℕ → ℕ × (ℕ → ℕ × ℕ)} {res : List FimExample} {ex : FimExample}
    (hrun : generate_random_examples fs all_files N M tape = .ok res)
    (hex : ex ∈ res) :
    ∃ fl e e0 ms, (ex.file_path, e) ∈ all_files ∧
      fs ex.file_path = some fl ∧ pyGetI e 0 = .ok e0 ∧
      ex.middlePart = String.join ms ∧
      ∀ line ∈ ms, is_function_or_class_declaration line = false ∧
        is_decorator line = false ∧
        get_indentation_level line ∉ prefix_function_indents fl e0 := by
  obtain ⟨e, fl, tp, mids, hmemf, hfs, hsel, _, hsp, _, _⟩ :=
    generate_random_examples_mem hrun ex hex
  obtain ⟨_, e0, he0, j, _, hAtt⟩ := randomly_select_ok_some hsel
  obtain ⟨d, a, b, _, _, _, _, _, fl0, _, hchk⟩ := sample_attempt_ok_some hAtt
  have hprops := check_section_false hchk
  obtain ⟨m0, rest, hms, _, _, hm, _⟩ := split_code_ok_some hsp
  refine ⟨fl, e, e0, _, hmemf, hfs, he0, hm, ?_⟩
  intro line hline
  obtain ⟨q, hqmem, hq2⟩ := List.mem_map.mp hline
  have hqf := List.mem_filter.mp hqmem
  have hqe := enumFrom_mem hqf.1
  have hqin : q.1 ∈ mids := by
    rw [hms]
    exact of_decide_eq_true hqf.2
  obtain ⟨line', hline', hd1, hd2, hd3, _⟩ := hprops q.1 hqin
  have hq : pyGetI fl ((q.1 : ℤ) - 1) = .ok q.2 := by
    rw [pyGetI_sub_one fl hqe.1]
    exact pyGetI_ofNat_ok.mpr hqe.2
  rw [hq] at hline'
  have heq : q.2 = line' := by injection hline'
  rw [← hq2, heq]
  exact ⟨hd1, hd3, hd2⟩

/-- Witness for the amended C2 at a concrete run. -/
theorem claim2_witness :
    generate_random_examples fsC filesC 1 100 tapeOne = .ok [exC] ∧
    ∃ fl e e0 ms, (exC.file_path, e) ∈ filesC ∧
      fsC exC.file_path = some fl ∧ pyGetI e 0 = .ok e0 ∧
      exC.middlePart = String.join ms ∧
      ∀ line ∈ ms, is_function_or_class_declaration line = false ∧
        is_decorator line = false ∧
        get_indentation_level line ∉ prefix_function_indents fl e0 :=
  ⟨rfl, claim2_middle_purity
    (show generate_random_examples fsC filesC 1 100 tapeOne = .ok [exC]
      from rfl) (List.mem_singleton_self exC)⟩

/-- C3, counterexample: in the sampler draw with `start_index = 1` and
`end_index = 2` on executed lines `[2, 6, 7]` (so
`executedLines[startIndex] = 6` and `executedLines[endIndex] = 7`), the
candidate middle is `[6]`: line 7 — the executed line at the chosen end
index, which the claim says is included — is excluded, because Python's
`range(a, b)` is end-exclusive. -/
theorem claim3_counterexample :
    sample_attempt flC [2, 6, 7] 1 10 (prefix_function_indents flC 2) 1 0
      = .ok (some [6]) ∧
    pyGetI ([2, 6, 7] : List ℕ) 1 = .ok 6 ∧
    pyGetI ([2, 6, 7] : List ℕ) 2 = .ok 7 ∧
    (6 : ℕ) ∈ ([6] : List ℕ) ∧ (7 : ℕ) ∉ ([6] : List ℕ) :=
  ⟨rfl, rfl, rfl, by decide, by decide⟩

/-- C3, amended: every candidate middle produced by a Span Sampler draw
consists of the file lines from `executedLines[startIndex]` up to but
excluding `executedLines[endIndex]` (`range(a, b)` is half-open): the
returned list is `List.range' a (b - a)`, membership is
`a ≤ x ∧ x < b`, and `b` itself is never a member. -/
theorem claim3_span_shape {fl : List String} {e : List ℕ} {minM maxM : ℕ}
    {F : List ℕ} {s t : ℕ} {m : List ℕ}
    (h : sample_attempt fl e minM maxM F s t = .ok (some m)) :
    ∃ d a b, py_randint minM maxM t = .ok d ∧
      pyGetI e ((min s (e.length - minM) : ℕ) : ℤ) = .ok a ∧
      pyGetI e ((min (min s (e.length - minM) + d) (e.length - 1) : ℕ) : ℤ)
        = .ok b ∧
      m = List.range' a (b - a) ∧ b ∉ m ∧
      (∀ x, x ∈ m ↔ a ≤ x ∧ x < b) := by
  obtain ⟨d, a, b, h1, h2, h3, h4, h5, _⟩ := sample_attempt_ok_some h
  refine ⟨d, a, b, h1, h2, h3, h4, ?_, ?_⟩
  · rw [h4]
    intro hmem
    have := mem_range'_iff.mp hmem
    omega
  · intro x
    rw [h4, mem_range'_iff]
    omega

/-- Witness for the amended C3 at a concrete draw. -/
theorem claim3_witness :
    ∃ d a b, py_randint 1 10 0 = .ok d ∧
      pyGetI ([2, 6, 7] : List ℕ)
        ((min 1 (([2, 6, 7] : List ℕ).length - 1) : ℕ) : ℤ) = .ok a ∧
      pyGetI ([2, 6, 7] : List ℕ)
        ((min (min 1 (([2, 6, 7] : List ℕ).length - 1) + d)
          (([2, 6, 7] : List ℕ).length - 1) : ℕ) : ℤ) = .ok b ∧
      ([6] : List ℕ) = List.range' a (b - a) ∧ b ∉ ([6] : List ℕ) ∧
      (∀ x, x ∈ ([6] : List ℕ) ↔ a ≤ x ∧ x < b) :=
  claim3_span_shape
    (show sample_attempt flC [2, 6, 7] 1 10 (prefix_function_indents flC 2)
      1 0 = .ok (some [6]) from rfl)

/-- C4, counterexample: the sampler accepts the candidate `[6]`, whose span
starts at absolute line 6, but the forbidden-depth set it used is
`prefix_function_indents flC 2 = [0]` — computed once from
`fileLines[0 : executedLines[0]]` — whereas the depths of the definition
headers strictly before line 6 (`fileLines[0 : 5]`) are `[0, 4]`.  The two
sets differ, so the forbidden set is not determined by the candidate span's
prefix region. -/
theorem claim4_counterexample :
    randomly_select_middle_section flC [2, 6, 7] 1 10 tapeSucc
      = .ok (some [6]) ∧
    prefix_function_indents flC 2 = [0] ∧
    ((flC.take (6 - 1)).filter is_function_or_class_declaration).map
      get_indentation_level = [0, 4] ∧
    prefix_function_indents flC 2
      ≠ ((flC.take (6 - 1)).filter is_function_or_class_declaration).map
          get_indentation_level :=
  ⟨rfl, by decide, by decide, by decide⟩

/-- C4, amended: the forbidden indentation depths used to validate every
candidate of a sampler call are `prefix_function_indents fileLines e0` — the
depths of the definition headers among `fileLines[0 : executedLines[0]]`,
computed once per call from the first executed line — independent of the
candidate span; every accepted middle line's depth avoids that set. -/
theorem claim4_forbidden_depths {fl : List String} {e : List ℕ}
    {minM maxM : ℕ} {tape : ℕ → ℕ × ℕ} {m : List ℕ}
    (h : randomly_select_middle_section fl e minM maxM tape
      = .ok (some m)) :
    ∃ e0, pyGetI e 0 = .ok e0 ∧ ∀ ln ∈ m, ∃ line,
      pyGetI fl ((ln : ℤ) - 1) = .ok line ∧
      get_indentation_level line ∉ prefix_function_indents fl e0 := by
  obtain ⟨_, e0, he0, j, _, hAtt⟩ := randomly_select_ok_some h
  obtain ⟨d, a, b, _, _, _, _, _, fl0, _, hchk⟩ := sample_attempt_ok_some hAtt
  refine ⟨e0, he0, fun ln hln => ?_⟩
  obtain ⟨line, h1, _, h3, _, _⟩ := check_section_false hchk ln hln
  exact ⟨line, h1, h3⟩

/-- Witness for the amended C4 at a concrete sampler call. -/
theorem claim4_witness :
    randomly_select_middle_section flC [2, 6, 7] 1 10 tapeSucc
      = .ok (some [6]) ∧
    ∃ e0, pyGetI ([2, 6, 7] : List ℕ) 0 = .ok e0 ∧
      ∀ ln ∈ ([6] : List ℕ), ∃ line,
        pyGetI flC ((ln : ℤ) - 1) = .ok line ∧
        get_indentation_level line ∉ prefix_function_indents flC e0 :=
  ⟨rfl, claim4_forbidden_depths
    (show randomly_select_middle_section flC [2, 6, 7] 1 10 tapeSucc
      = .ok (some [6]) from rfl)⟩

/-- C6, counterexample: a coverage index lists `g.py` with a non-empty
executed-lines list, but the file is unreadable (`fs` returns `none`, i.e.
`open` raises `IOError`).  The Example Builder aborts the whole run with that
error instead of counting a failed attempt and continuing. -/
theorem claim6_counterexample :
    generate_random_examples (fun _ => none) [("g.py", [1])] 1 100 tapeOne
      = .error .ioError :=
  rfl

/-- C6, amended: when the selected file is listed in the index with a
non-empty executed-lines list but is missing or unreadable, the `IOError`
from `open` propagates out of `generate_random_examples`, aborting the whole
run (there is no per-file exception handling); the failure is not confined to
the selection attempt and does not count toward the retry budget. -/
theorem claim6_missing_file_aborts {fs : String → Option (List String)}
    {p : String} {el : List ℕ} {N M : ℕ} {tape : ℕ → ℕ × (ℕ → ℕ × ℕ)}
    (hel : el ≠ []) (hfs : fs p = none) (hN : 0 < N) (hM : 0 < M) :
    generate_random_examples fs [(p, el)] N M tape = .error .ioError := by
  unfold generate_random_examples
  have hpos : 0 < (N + 1) * (M + 1) :=
    Nat.mul_pos (Nat.succ_pos N) (Nat.succ_pos M)
  rw [show (N + 1) * (M + 1) = ((N + 1) * (M + 1) - 1) + 1 from by omega]
  simp only [generate_loop]
  rw [if_neg (show ¬ (N ≤ ([] : List FimExample).length ∨ M ≤ 0) from by
    simp only [List.length_nil]
    omega)]
  simp only [List.length_singleton, Nat.mod_one, List.get]
  rw [if_neg (show ¬ ((p, el).2 = []) from hel)]
  simp only [hfs]

/-- Witness for the amended C6 at a concrete run. -/
theorem claim6_witness :
    ([1] : List ℕ) ≠ [] ∧
    (fun _ => (none : Option (List String))) "g.py" = none ∧
    (0 : ℕ) < 1 ∧ (0 : ℕ) < 100 ∧
    generate_random_examples (fun _ => none) [("g.py", [1])] 1 100 tapeOne
      = .error .ioError :=
  ⟨by decide, rfl, by decide, by decide,
    claim6_missing_file_aborts (by decide) rfl (by decide) (by decide)⟩

/-- C7, counterexample: with the invalid configuration
`min_middle = 2 > max_middle = 1` no failure is raised at
configuration-validation time.  With one executed line the sampler returns
`None` (no failure at all); with two executed lines the failure that does
occur is the `ValueError` raised by `random.randint` from inside the
sampling loop, after sampling has begun. -/
theorem claim7_counterexample :
    randomly_select_middle_section ["x = 1\n"] [1] 2 1 tapeFail = .ok none ∧
    randomly_select_middle_section ["x = 1\n", "y = 2\n"] [1, 2] 2 1 tapeFail
      = .error .valueError :=
  ⟨rfl, rfl⟩

/-- C7, amended: no configuration validation exists.  With
`min_middle > max_middle`, the sampler returns `None` without any error
whenever the executed-lines list is shorter than `min_middle`, and otherwise
raises `ValueError` from the `random.randint` length draw inside the first
sampling attempt. -/
theorem claim7_invalid_config {fl : List String} {e : List ℕ}
    {minM maxM : ℕ} {tape : ℕ → ℕ × ℕ} (hcfg : maxM < minM) :
    (e.length < minM →
      randomly_select_middle_section fl e minM maxM tape = .ok none) ∧
    (minM ≤ e.length →
      randomly_select_middle_section fl e minM maxM tape
        = .error .valueError) := by
  constructor
  · intro hlen
    unfold randomly_select_middle_section
    rw [if_pos hlen]
  · intro hlen
    unfold randomly_select_middle_section
    rw [if_neg (by omega)]
    have h0 : 0 < e.length := by omega
    have he0 : pyGetI e (0 : ℤ) = .ok (e.get ⟨0, h0⟩) := by
      simpa using pyGetI_lt h0
    simp only [he0]
    have hatt : sample_attempt fl e minM maxM
        (prefix_function_indents fl (e.get ⟨0, h0⟩)) (tape 0).1 (tape 0).2
        = .error .valueError := by
      have hrand : py_randint minM maxM (tape 0).2 = .error .valueError := by
        unfold py_randint
        rw [if_pos hcfg]
      simp only [sample_attempt, hrand]
    rw [show (10 : ℕ) = 9 + 1 from rfl]
    simp only [sample_loop, hatt]

/-- Witness for the amended C7 at concrete inputs. -/
theorem claim7_witness :
    (1 : ℕ) < 2 ∧
    randomly_select_middle_section ["x = 1\n"] [1] 2 1 tapeFail = .ok none ∧
    randomly_select_middle_section ["x = 1\n", "y = 2\n"] [1, 2] 2 1 tapeFail
      = .error .valueError :=
  ⟨by decide,
    (claim7_invalid_config (by decide)).1 (by decide),
    (claim7_invalid_config (by decide)).2 (by decide)⟩

/-- C8, counterexample: the file `flSingle` has a single executed line
(line 2) that is structurally admissible — not a definition header, not a
decorator, and its depth avoids the forbidden set — yet the sampler with
`min_middle = 1` returns `None`: `range(executed[0], executed[0])` is empty
on every attempt, so no one-line span is ever produced. -/
theorem claim8_counterexample :
    randomly_select_middle_section flSingle [2] 1 10 tapeFail = .ok none ∧
    is_function_or_class_declaration "    return 1\n" = false ∧
    is_decorator "    return 1\n" = false ∧
    get_indentation_level "    return 1\n"
      ∉ prefix_function_indents flSingle 2 :=
  ⟨rfl, by decide, by decide, by decide⟩

/-- Helper for C8: on a single executed line with `min_middle = 1`, one
sampling attempt always yields the empty candidate `range(e0, e0)` and
returns `None`. -/
theorem sample_attempt_singleton {fl : List String} {x maxM : ℕ}
    {F : List ℕ} {s t : ℕ} (hmax : 1 ≤ maxM) :
    sample_attempt fl [x] 1 maxM F s t = .ok none := by
  have hr : py_randint 1 maxM t = .ok (1 + t % (maxM - 1 + 1)) := by
    unfold py_randint
    rw [if_neg (by omega)]
  have hg : pyGetI ([x] : List ℕ) ((0 : ℕ) : ℤ) = .ok x := by
    rw [pyGetI_ofNat]
    rfl
  simp only [sample_attempt, List.length_singleton, Nat.sub_self,
    Nat.min_zero, Nat.zero_add, hr, hg, List.range'_zero]

/-- Helper for C8: the retry loop therefore returns `None` at every fuel. -/
theorem sample_loop_singleton {fl : List String} {x maxM : ℕ} {F : List ℕ}
    {tape : ℕ → ℕ × ℕ} (hmax : 1 ≤ maxM) :
    ∀ {fuel k : ℕ}, sample_loop fl [x] 1 maxM F tape fuel k = .ok none := by
  intro fuel
  induction fuel with
  | zero => intro k; rfl
  | succ n ih =>
    intro k
    simp only [sample_loop, sample_attempt_singleton hmax]
    exact ih

/-- C8, amended: for a file whose executed-lines list has exactly one
element, the sampler called with `min_middle = 1` (and any
`max_middle ≥ 1`) always returns `None` — even when the single executed line
is structurally admissible — because the candidate
`range(executed[0], executed[0])` is empty; it never crashes on index
arithmetic. -/
theorem claim8_single_executed {fl : List String} {e : List ℕ} {maxM : ℕ}
    {tape : ℕ → ℕ × ℕ} (hone : e.length = 1) (hmax : 1 ≤ maxM) :
    randomly_select_middle_section fl e 1 maxM tape = .ok none := by
  obtain ⟨x, rfl⟩ : ∃ x, e = [x] := by
    cases e with
    | nil => simp at hone
    | cons y ys =>
      cases ys with
      | nil => exact ⟨y, rfl⟩
      | cons z zs => simp at hone
  unfold randomly_select_middle_section
  rw [if_neg (by simp)]
  have hg : pyGetI ([x] : List ℕ) (0 : ℤ) = .ok x := rfl
  simp only [hg]
  exact sample_loop_singleton hmax

/-- Witness for the amended C8 at a concrete input. -/
theorem claim8_witness :
    ([2] : List ℕ).length = 1 ∧ (1 : ℕ) ≤ 10 ∧
    randomly_select_middle_section flSingle [2] 1 10 tapeFail = .ok none :=
  ⟨rfl, by decide, claim8_single_executed rfl (by decide)⟩

/-- C9, counterexample: with target `N = 2` and budget `M = 2`, the tape
`tapeC9` makes iterations 0 and 2 pick the empty-coverage file (each a
failed iteration) and iterations 1 and 3 succeed on `f.py`.  The code
collects both examples, because the success at iteration 1 reset the
retry counter to 0 before the second failure; under the claim's reading, in
which retries accumulate over the whole run, the budget of 2 is exhausted at
iteration 2 and the run stops with only one example
(`generate_random_examples_accumulated`). -/
theorem claim9_counterexample :
    (generate_random_examples fsC filesC9 2 2 tapeC9).map List.length
      = .ok 2 ∧
    (generate_random_examples_accumulated fsC filesC9 2 2 tapeC9).map
      List.length = .ok 1 :=
  ⟨rfl, rfl⟩

/-- C9, amended: the Example Builder stops early once `max_retries`
consecutive failed iterations since the last accepted example have occurred —
the counter is reset to 0 at each acceptance, so it is not a total
accumulated across the whole run — returning the partial (possibly empty)
list collected so far; in particular with a budget of 0 it returns `[]`
immediately. -/
theorem claim9_retry_reset {fs : String → Option (List String)}
    {all_files : List (String × List ℕ)} {N M fuel : ℕ}
    {tape : ℕ → ℕ × (ℕ → ℕ × ℕ)} {examples : List FimExample}
    {retries it : ℕ} (h : M ≤ retries) :
    generate_loop fs all_files N M tape (fuel + 1) examples retries it
      = .ok examples ∧
    generate_random_examples fs all_files N 0 tape = .ok [] := by
  constructor
  · simp only [generate_loop]
    rw [if_pos (Or.inr h)]
  · unfold generate_random_examples
    rw [show (N + 1) * (0 + 1) = N + 1 from by ring]
    simp only [generate_loop]
    rw [if_pos (Or.inr (le_refl 0))]

/-- Witness for the amended C9 at concrete inputs. -/
theorem claim9_witness :
    (2 : ℕ) ≤ 3 ∧
    (generate_loop fsC filesC 5 2 tapeOne (0 + 1) [] 3 0 = .ok [] ∧
      generate_random_examples fsC filesC 5 0 tapeOne = .ok []) :=
  ⟨by decide, claim9_retry_reset (by decide)⟩

end ExtractData
